import Mathlib

/-!
Verification of the linac lattice model in
`src/Linac/Input_File_Parsing/LinacAccLattice.py`.

The embedding below translates, class by class, the parts of the source that
the claims refer to: the RF cavity / RF gap phase state machine
(`RF_Cavity`, `BaseRF_Gap`), the factory's RF-cavity grouping scan and its
drift-synthesis step (`factoryStepRFGap`, `insertDrifts`), the part-splitting
of quadrupoles and RF gaps (`Quad.initParts`, `BaseRF_Gap.initParts`), the
tilt decorators (`LinacNode`), the lattice-level tracking entry points
(`LinacAccLattice.trackBunch`, `LinacAccLattice.trackDesignBunch`) and the
name lookups (`LinacAccLattice.getRF_Cavity`, `LinacAccLattice.getSequence`).

Geometry and part lengths are modelled over `ℚ` (the Python floats carry
exact decimal data in all the constructions at issue); phases and times,
which mix rational data with `π`, are modelled over `ℝ`.  Fallible code
(`orbitFinalize`, Python `AttributeError` / `IndexError` /
`UnboundLocalError`) is modelled with `Except String`.
-/

set_option maxHeartbeats 1000000

/-- Truncation toward zero, as used by C's and Python's `fmod`. -/
noncomputable def rtrunc (x : ℝ) : ℤ :=
  if 0 ≤ x then Int.floor x else Int.ceil x

/-- Embeds Python's `math.fmod`: the remainder of `x / y` with the sign of
`x`, i.e. `x - y * trunc (x / y)`. -/
noncomputable def fmod (x y : ℝ) : ℝ :=
  x - y * ((rtrunc (x / y) : ℤ) : ℝ)

/-- A particle bunch: the per-particle coordinates, the synchronous
particle's clock (`getSyncParticle().time()`) and its kinetic energy
(`getSyncParticle().kinEnergy()`). -/
structure Bunch where
  particles : List (ℝ × ℝ × ℝ × ℝ × ℝ × ℝ)
  syncTime : ℝ
  kinEnergy : ℝ

/-- The state of a `BaseRF_Gap` node that the claims consult: its parameters
`E0TL`, `modePhase`, `firstPhase` (set by the factory) and the
`__isFirstGap` flag (lines 948-1004 of the source). -/
structure BaseRF_Gap where
  name : String
  E0TL : ℝ
  modePhase : ℝ
  firstPhase : ℝ
  isFirstGap : Bool

/-- The state of an `RF_Cavity` (source lines 1178-1271): the parameter
dictionary set up by `__init__` plus the owned list of RF gaps. -/
structure RF_Cavity where
  name : String
  frequency : ℝ
  phase : ℝ
  amp : ℝ
  designPhase : ℝ
  designAmp : ℝ
  firstGapTime : ℝ
  designArrivalTime : ℝ
  isDesignSetUp : Bool
  rfGaps : List BaseRF_Gap

/-- Embeds `RF_Cavity.__init__` (lines 1183-1194): every parameter starts at
`0.`, `isDesignSetUp` starts `False`, and the gap list is empty. -/
noncomputable def RF_Cavity.create (name : String) : RF_Cavity :=
  ⟨name, 0, 0, 0, 0, 0, 0, 0, false, []⟩

/-- Embeds `RF_Cavity.addRF_GapNode` (lines 1260-1267): the gap is appended,
and its first-gap flag is set to `True` exactly when it is the only gap in
the cavity after the append (i.e. the gap list was empty before). -/
def RF_Cavity.addRF_GapNode (cav : RF_Cavity) (gap : BaseRF_Gap) : RF_Cavity :=
  let gap1 := { gap with isFirstGap := cav.rfGaps.isEmpty }
  { cav with rfGaps := cav.rfGaps ++ [gap1] }

/-- Embeds `BaseRF_Gap.trackDesignBunch` at part index 1 (source lines
1069-1090).  Returns the cavity and bunch after the call.  For the first gap
the design arrival time is recorded and the phase used is
`designPhase + modePhase*pi`; note that the source never calls
`setDesignSetUp`, so `isDesignSetUp` is left untouched.  For a non-first gap
the phase is `fmod(freq*(t - designArrivalTime)*2*pi + rfPhase, 2*pi)`. -/
noncomputable def BaseRF_Gap.trackDesignPart1 (gap : BaseRF_Gap) (cav : RF_Cavity)
    (bunch : Bunch) : RF_Cavity × Bunch :=
  let E0TL := gap.E0TL
  let modePhase := gap.modePhase * Real.pi
  let arrival_time := bunch.syncTime
  let frequency := cav.frequency
  let rfPhase := cav.designPhase + modePhase
  if gap.isFirstGap then
    let cav1 := { cav with designArrivalTime := arrival_time }
    let phase := rfPhase
    (cav1, { bunch with kinEnergy := bunch.kinEnergy + E0TL * Real.cos phase })
  else
    let phase :=
      fmod (frequency * (arrival_time - cav.designArrivalTime) * 2 * Real.pi + rfPhase)
        (2 * Real.pi)
    (cav, { bunch with kinEnergy := bunch.kinEnergy + E0TL * Real.cos phase })

/-- Embeds `BaseRF_Gap.track` at part index 1 (source lines 1032-1053).
After reading `E0TL`, `modePhase` and the cavity reference, the source
executes `frequency = rfCavity.frequency()` (line 1035); class `RF_Cavity`
defines no method named `frequency` (its accessor is `getFrequency`), so in
Python this raises `AttributeError` before any cavity or bunch state is
mutated.  The raised exception is embedded as `Except.error` and the cavity
is returned unchanged.  Had execution continued, the first-gap branch would
call `rfCavity.isDesignSetUp()` (line 1041; also undefined, the accessor is
`istDesignSetUp`), and the non-first-gap branch reads the local `syncPart`
(line 1046) before its assignment at line 1050, an `UnboundLocalError`. -/
noncomputable def BaseRF_Gap.trackPart1 (gap : BaseRF_Gap) (cav : RF_Cavity)
    (bunch : Bunch) : RF_Cavity × Except String Bunch :=
  let _E0TL := gap.E0TL
  let _modePhase := gap.modePhase * Real.pi
  let _bunch := bunch
  (cav, Except.error "AttributeError: RF_Cavity instance has no attribute frequency")

/-- A parsed RFGAP element as seen by the factory loop (source lines
221-245): element name, the `parentCvaity` (sic) parameter, and the raw
`firstPhase` (degrees), `modePhase` and `E0TL` (MeV) parameters. -/
structure ParsedGapElem where
  name : String
  parentCavity : String
  firstPhase : ℝ
  modePhase : ℝ
  E0TL : ℝ

/-- Embeds one RFGAP iteration of the factory scan (source lines 221-245),
acting on the state `(rf_cav_names, accRF_Cavs)`.  A first-seen cavity name
converts the gap's `firstPhase` to radians, creates the cavity with the
sequence RF frequency and the converted phase as both design and actual
phase, and registers the name.  In both cases the gap is then appended to
`accRF_Cavs[len(accRF_Cavs) - 1]` - the most recently created cavity, not
the cavity looked up by name (line 243).  The already-seen branch with an
empty cavity list cannot arise from the initial state `([], [])`; Python
would raise `IndexError` there, and the embedding returns the state
unchanged. -/
noncomputable def factoryStepRFGap (rfFreq : ℝ) (st : List String × List RF_Cavity)
    (e : ParsedGapElem) : List String × List RF_Cavity :=
  let names := st.1
  let cavs := st.2
  let accNode : BaseRF_Gap :=
    { name := e.name, E0TL := (1 / 1000) * e.E0TL, modePhase := e.modePhase,
      firstPhase := e.firstPhase, isFirstGap := false }
  if e.parentCavity ∈ names then
    match cavs.getLast? with
    | none => (names, cavs)
    | some lastCav => (names, cavs.dropLast ++ [lastCav.addRF_GapNode accNode])
  else
    let accNode1 := { accNode with firstPhase := (Real.pi / 180) * e.firstPhase }
    let newCav : RF_Cavity :=
      { RF_Cavity.create e.parentCavity with
          designPhase := accNode1.firstPhase, phase := accNode1.firstPhase,
          designAmp := 1, amp := 1, frequency := rfFreq }
    (names ++ [e.parentCavity], cavs ++ [newCav.addRF_GapNode accNode1])

/-- The factory's RFGAP bookkeeping over a whole element list, starting from
the per-sequence initial state (`rf_cav_names = []`, `accRF_Cavs = []`). -/
noncomputable def processRFGaps (rfFreq : ℝ) (elems : List ParsedGapElem) :
    List String × List RF_Cavity :=
  elems.foldl (factoryStepRFGap rfFreq) ([], [])

/-- The property the spec asserts of every cavity's gap list: the first
appended gap is flagged as the first RF gap and no later gap is. -/
def FirstFlagOK (cav : RF_Cavity) : Prop :=
  ∃ g0 gs, cav.rfGaps = g0 :: gs ∧ g0.isFirstGap = true ∧
    ∀ g ∈ gs, g.isFirstGap = false

/-- The geometric data of a lattice node during drift synthesis: its center
position and its length (source params `pos` and `getLength()`). -/
structure GNode where
  pos : ℚ
  len : ℚ
deriving DecidableEq

/-- `self.zeroDistance = 0.00001` (source line 146). -/
def zeroDistance : ℚ := 1 / 100000

/-- Leading edge `pos - L/2` of a node. -/
def gLeading (n : GNode) : ℚ := n.pos - n.len / 2

/-- Trailing edge `pos + L/2` of a node. -/
def gTrailing (n : GNode) : ℚ := n.pos + n.len / 2

/-- The inter-node distance computed at source line 308:
`node1.pos - node1.len/2 - (node0.pos + node0.len/2)`. -/
def gDist (a b : GNode) : ℚ := gLeading b - gTrailing a

/-- The drift synthesized between two nodes (source lines 320-322): length
`dist`, centred at `node0.pos + (node0.len + dist)/2`. -/
def mkDrift (a : GNode) (dist : ℚ) : GNode :=
  ⟨a.pos + (a.len + dist) / 2, dist⟩

/-- Embeds the first-node check of the factory (source lines 263-281): a
first node whose half length overshoots its position by more than
`zeroDistance` is fatal; a shortfall larger than `zeroDistance` synthesizes
a leading drift of exactly `pos - L/2` centred at half its own length. -/
def frontCheck (first : GNode) : Except String (List GNode) :=
  if zeroDistance < |first.len / 2 - first.pos| then
    if first.pos < first.len / 2 then
      Except.error "the first node is too long"
    else
      Except.ok [⟨(first.pos - first.len / 2) / 2, first.pos - first.len / 2⟩]
  else
    Except.ok []

/-- Embeds the last-node check of the factory (source lines 282-303):
symmetric to `frontCheck` against the sequence length. -/
def backCheck (seqLen : ℚ) (last : GNode) : Except String (List GNode) :=
  if zeroDistance < |last.len / 2 + last.pos - seqLen| then
    if seqLen < last.len / 2 + last.pos then
      Except.error "the last node is too long"
    else
      Except.ok [⟨last.pos + (last.len + (seqLen - (last.pos + last.len / 2))) / 2,
        seqLen - (last.pos + last.len / 2)⟩]
  else
    Except.ok []

/-- Embeds the adjacent-pair loop of the factory (source lines 304-326):
for each consecutive pair a negative separation is fatal ("two nodes are
overlapping"), a separation above `zeroDistance` synthesizes a drift of
exactly that length immediately before the second node, and a separation
within `zeroDistance` inserts nothing. -/
def midDrifts : List GNode → Except String (List GNode)
  | [] => Except.ok []
  | [a] => Except.ok [a]
  | a :: b :: rest =>
    if gDist a b < 0 then Except.error "two nodes are overlapping"
    else
      match midDrifts (b :: rest) with
      | Except.error msg => Except.error msg
      | Except.ok tail =>
        if zeroDistance < gDist a b then Except.ok (a :: mkDrift a (gDist a b) :: tail)
        else Except.ok (a :: tail)

/-- Embeds the whole drift-synthesis step of
`LinacLatticeFactory.getLinacAccLattice` (source lines 260-326): the
first-node check, the last-node check and the adjacent-pair loop, producing
the position-ordered node list with all synthesized drifts in place. -/
def insertDrifts (seqLen : ℚ) (nodes : List GNode) : Except String (List GNode) :=
  match nodes with
  | [] => Except.error "empty sequence"
  | first :: rest =>
    match frontCheck first with
    | Except.error msg => Except.error msg
    | Except.ok front =>
      match backCheck seqLen (rest.getLastD first) with
      | Except.error msg => Except.error msg
      | Except.ok back =>
        match midDrifts (first :: rest) with
        | Except.error msg => Except.error msg
        | Except.ok mids => Except.ok (front ++ mids ++ back)

/-- Adjacency of extents within the zero-distance tolerance: the trailing
edge of `x` and the leading edge of `y` coincide within `zeroDistance`. -/
def edgeAdj (x y : GNode) : Prop :=
  |gTrailing x - gLeading y| ≤ zeroDistance

/-- The tiling property claimed of every successfully constructed sequence:
the list is nonempty, its first leading edge is `0` and its last trailing
edge is the sequence length (both within `zeroDistance`), and every
adjacent pair of extents matches within `zeroDistance`. -/
def TilesWithin (seqLen : ℚ) (l : List GNode) : Prop :=
  l ≠ [] ∧ |gLeading (l.headD ⟨0, 0⟩)| ≤ zeroDistance ∧
    |gTrailing (l.getLastD ⟨0, 0⟩) - seqLen| ≤ zeroDistance ∧
    List.Chain' edgeAdj l

/-- Assignment `parts[i] = x` on the per-part length array; an out-of-range
index is a Python `IndexError`. -/
def setLengthAt (l : List ℚ) (x : ℚ) (i : ℕ) : Except String (List ℚ) :=
  if i < l.length then Except.ok (l.set i x) else Except.error "index out of range"

/-- The interior loop of `Quad.initialize` (source lines 844-845): sets
indices `1 .. k` of the part array to `s`. -/
def applySteps (l : List ℚ) (s : ℚ) : ℕ → Except String (List ℚ)
  | 0 => Except.ok l
  | k + 1 =>
    match applySteps l s k with
    | Except.error msg => Except.error msg
    | Except.ok l1 => setLengthAt l1 s (k + 1)

/-- Embeds `Quad.initialize` (source lines 822-845) for a quad of length `L`
split into `nParts` parts.  Note the guard is the source's
`nParts < 2 and nParts % 2 != 0` - a conjunction, exactly as written at
line 828.  The source locals `lengthIN` and `lengthOUT` are both
`(L/(nParts-1))/2` and `lengthStep = lengthIN + lengthOUT`; they are written
inline here.  Part 0 gets `lengthIN`, part `nParts-1` gets `lengthOUT`, and
the loop sets parts `1 .. nParts-2` to `lengthStep`.  On success the
part-length list is returned. -/
def Quad.initParts (nParts : ℕ) (L : ℚ) : Except String (List ℚ) :=
  if nParts < 2 ∧ nParts % 2 ≠ 0 then
    Except.error "The Quad Combined Function class instance should have no less than 2 and even number of parts"
  else
    match setLengthAt (List.replicate nParts 0) (L / ((nParts : ℚ) - 1) / 2) 0 with
    | Except.error msg => Except.error msg
    | Except.ok l1 =>
      match setLengthAt l1 (L / ((nParts : ℚ) - 1) / 2) (nParts - 1) with
      | Except.error msg => Except.error msg
      | Except.ok l2 =>
        applySteps l2 (L / ((nParts : ℚ) - 1) / 2 + L / ((nParts : ℚ) - 1) / 2)
          (nParts - 2)

/-- Embeds `BaseRF_Gap.initialize` (source lines 964-986): any part count
other than 3 is fatal; otherwise the three part lengths are
`L/2, 0, L/2`. -/
def BaseRF_Gap.initParts (nParts : ℕ) (L : ℚ) : Except String (List ℚ) :=
  if nParts ≠ 3 then Except.error "The simple Rf gap should have 3 parts"
  else
    match setLengthAt (List.replicate 3 0) (L / 2) 0 with
    | Except.error msg => Except.error msg
    | Except.ok l1 =>
      match setLengthAt l1 0 1 with
      | Except.error msg => Except.error msg
      | Except.ok l2 => setLengthAt l2 (L / 2) 2

/-- Embeds the drift slices of `BaseRF_Gap.track` (source lines 1026-1030):
for part index 0 or 2 the bunch is drifted by the part length plus the gap
offset, the offset being negated at index 2 and taken as `0` when the
`gapOffset` parameter is absent. -/
def BaseRF_Gap.gapDriftLength (hasOffset : Bool) (gapOffsetParam partLen : ℚ)
    (index : ℕ) : ℚ :=
  let g0 := if hasOffset then gapOffsetParam else 0
  let g1 := if index = 2 then -g0 else g0
  partLen + g1

/-- A `TiltElement` (source lines 1093-1124): just its name and angle. -/
structure TiltElement where
  name : String
  angle : ℚ

/-- The tiltable `LinacNode` state (source lines 527-566): the `tilt`
parameter and the entrance and exit `TiltElement` children. -/
structure LinacNode where
  name : String
  tiltParam : ℚ
  tiltNodeIN : TiltElement
  tiltNodeOUT : TiltElement

/-- Embeds `LinacNode.__init__` (source lines 531-540): both tilt children
are created with the `TiltElement` default angle `0.`, renamed, and the
`tilt` parameter is initialized from the entrance child's angle. -/
def LinacNode.create (name : String) : LinacNode :=
  let tiltIn : TiltElement := ⟨name ++ "_tilt_in", 0⟩
  let tiltOut : TiltElement := ⟨name ++ "_tilt_out", 0⟩
  { name := name, tiltParam := tiltIn.angle, tiltNodeIN := tiltIn, tiltNodeOUT := tiltOut }

/-- Embeds `LinacNode.setTiltAngle` (source lines 542-548).  Its first
statement, line 546, is `self.__params["tilt"] = angle`; written inside
`class LinacNode`, Python name-mangles it to `self._LinacNode__params`, an
attribute nothing ever defines (the `tilt` parameter was added through the
external `ParamsDictObject` API at line 539, and this file contains no other
`__params`).  Every call therefore raises `AttributeError` before lines
547-548 would update the entrance and exit tilt children, so the node is
returned unchanged alongside the embedded exception.  Had execution
continued, the entrance child would get `angle` and the exit child
`(-1.0) * angle`. -/
def LinacNode.setTiltAngle (node : LinacNode) (angle : ℚ) :
    LinacNode × Except String Unit :=
  let _angle := angle
  (node, Except.error "AttributeError: LinacNode instance has no attribute _LinacNode__params")

/-- Embeds `bunch_in.copyEmptyBunchTo(bunch)` (source line 74): the new
bunch carries the same attributes but no particles. -/
def copyEmptyBunch (b : Bunch) : Bunch := { b with particles := [] }

/-- The tracking loop driven by `trackActions`: each node's track action is
applied to the bunch in lattice order. -/
def runNodes (effects : List (Bunch → Bunch)) (b : Bunch) : Bunch :=
  effects.foldl (fun bb f => f bb) b

/-- Embeds `LinacAccLattice.trackBunch` (source lines 50-64) over an
explicit bunch heap: the supplied bunch (at `bid`) has its sync-particle
time reset to `0.` and is itself propagated through the nodes - the
caller's bunch is mutated in place. -/
def LinacAccLattice.trackBunch (effects : List (Bunch → Bunch)) (heap : ℕ → Bunch)
    (bid : ℕ) : ℕ → Bunch :=
  Function.update heap bid (runNodes effects { heap bid with syncTime := 0 })

/-- Embeds `LinacAccLattice.trackDesignBunch` (source lines 66-84) over an
explicit bunch heap: a fresh bunch is allocated at `newId`, filled by
`copyEmptyBunchTo` from the bunch at `bid`, its sync time reset to `0.`,
and only that fresh bunch is propagated through the nodes. -/
def LinacAccLattice.trackDesignBunch (effects : List (Bunch → Bunch))
    (heap : ℕ → Bunch) (bid newId : ℕ) : ℕ → Bunch :=
  let h1 := Function.update heap newId (copyEmptyBunch (heap bid))
  let h2 := Function.update h1 newId { h1 newId with syncTime := 0 }
  Function.update h2 newId (runNodes effects (h2 newId))

/-- A `Sequence` (source lines 1273-1314): name, start position, length. -/
structure Sequence where
  name : String
  position : ℚ
  length : ℚ
deriving DecidableEq

/-- Embeds `LinacAccLattice.getRF_Cavity` (source lines 98-103): scan the
stored cavities in order, return the first whose name matches, else
`None`. -/
noncomputable def LinacAccLattice.getRF_Cavity : List RF_Cavity → String → Option RF_Cavity
  | [], _ => none
  | cav :: rest, nm =>
    if nm = cav.name then some cav else LinacAccLattice.getRF_Cavity rest nm

/-- Embeds `LinacAccLattice.getSequence` (source lines 121-126): scan the
stored sequences in order, return the first whose name matches, else
`None`. -/
def LinacAccLattice.getSequence : List Sequence → String → Option Sequence
  | [], _ => none
  | seq :: rest, nm =>
    if nm = seq.name then some seq else LinacAccLattice.getSequence rest nm

/-!  Helper lemmas (shared; none of these is a claim's theorem). -/

theorem getRF_Cavity_none_iff (cavs : List RF_Cavity) (nm : String) :
    LinacAccLattice.getRF_Cavity cavs nm = none ↔ ∀ c ∈ cavs, c.name ≠ nm := by
  induction cavs with
  | nil => simp [LinacAccLattice.getRF_Cavity]
  | cons c0 rest ih =>
    by_cases h : nm = c0.name
    · rw [LinacAccLattice.getRF_Cavity, if_pos h]
      constructor
      · intro hnone
        simp at hnone
      · intro hall
        exact absurd h.symm (hall c0 (List.mem_cons_self c0 rest))
    · simp only [LinacAccLattice.getRF_Cavity, if_neg h, List.mem_cons, ih]
      constructor
      · intro hall c hc
        rcases hc with rfl | hc
        · exact fun hcn => h hcn.symm
        · exact hall c hc
      · intro hall c hc
        exact hall c (Or.inr hc)

theorem getRF_Cavity_some_first (cavs : List RF_Cavity) (nm : String) (c : RF_Cavity)
    (h : LinacAccLattice.getRF_Cavity cavs nm = some c) :
    c.name = nm ∧ ∃ pre post, cavs = pre ++ c :: post ∧ ∀ c2 ∈ pre, c2.name ≠ nm := by
  induction cavs with
  | nil => simp [LinacAccLattice.getRF_Cavity] at h
  | cons c0 rest ih =>
    by_cases h0 : nm = c0.name
    · rw [LinacAccLattice.getRF_Cavity, if_pos h0] at h
      obtain rfl : c0 = c := by injection h
      exact ⟨h0.symm, [], rest, rfl, by intro c2 hc2; simp at hc2⟩
    · rw [LinacAccLattice.getRF_Cavity, if_neg h0] at h
      obtain ⟨hname, pre, post, heq, hpre⟩ := ih h
      refine ⟨hname, c0 :: pre, post, by rw [heq]; rfl, ?_⟩
      intro c2 hc2
      rcases List.mem_cons.mp hc2 with rfl | hc2
      · exact fun hcn => h0 hcn.symm
      · exact hpre c2 hc2

theorem getSequence_none_iff (seqs : List Sequence) (nm : String) :
    LinacAccLattice.getSequence seqs nm = none ↔ ∀ s ∈ seqs, s.name ≠ nm := by
  induction seqs with
  | nil => simp [LinacAccLattice.getSequence]
  | cons s0 rest ih =>
    by_cases h : nm = s0.name
    · rw [LinacAccLattice.getSequence, if_pos h]
      constructor
      · intro hnone
        simp at hnone
      · intro hall
        exact absurd h.symm (hall s0 (List.mem_cons_self s0 rest))
    · simp only [LinacAccLattice.getSequence, if_neg h, List.mem_cons, ih]
      constructor
      · intro hall s hs
        rcases hs with rfl | hs
        · exact fun hsn => h hsn.symm
        · exact hall s hs
      · intro hall s hs
        exact hall s (Or.inr hs)

theorem getSequence_some_first (seqs : List Sequence) (nm : String) (s : Sequence)
    (h : LinacAccLattice.getSequence seqs nm = some s) :
    s.name = nm ∧ ∃ pre post, seqs = pre ++ s :: post ∧ ∀ s2 ∈ pre, s2.name ≠ nm := by
  induction seqs with
  | nil => simp [LinacAccLattice.getSequence] at h
  | cons s0 rest ih =>
    by_cases h0 : nm = s0.name
    · rw [LinacAccLattice.getSequence, if_pos h0] at h
      obtain rfl : s0 = s := by injection h
      exact ⟨h0.symm, [], rest, rfl, by intro s2 hs2; simp at hs2⟩
    · rw [LinacAccLattice.getSequence, if_neg h0] at h
      obtain ⟨hname, pre, post, heq, hpre⟩ := ih h
      refine ⟨hname, s0 :: pre, post, by rw [heq]; rfl, ?_⟩
      intro s2 hs2
      rcases List.mem_cons.mp hs2 with rfl | hs2
      · exact fun hsn => h0 hsn.symm
      · exact hpre s2 hs2

/-- C5.  The source guard at line 828 is `nParts < 2 and nParts % 2 != 0`,
a conjunction, so the odd part count 3 passes the check and
`Quad.initialize` succeeds, producing parts `[L/4, L/2, L/4]` for `L = 1` -
contradicting both the claim and the source's own error message, which
demands at least 2 and an even number of parts. -/
theorem claim_C5_quad_odd_part_count_accepted :
    Quad.initParts 3 1 = Except.ok [1/4, 1/2, 1/4] := by
  rw [Quad.initParts, if_neg (by decide)]
  norm_num [setLengthAt, applySteps]
  simp [List.replicate_succ, List.set_cons_zero, List.set_cons_succ]

/-- C7.  `BaseRF_Gap.initialize` fails exactly when the part count differs
from 3; on success the part lengths are `L/2, 0, L/2`; and the drift slices
of `BaseRF_Gap.track` move the bunch by `length + gapOffset` at entry
(part 0) and `length - gapOffset` at exit (part 2). -/
theorem claim_C7_rfgap_three_parts :
    (∀ (n : ℕ) (L : ℚ), n ≠ 3 → ∃ msg, BaseRF_Gap.initParts n L = Except.error msg) ∧
    (∀ L : ℚ, BaseRF_Gap.initParts 3 L = Except.ok [L / 2, 0, L / 2]) ∧
    (∀ g L : ℚ, BaseRF_Gap.gapDriftLength true g L 0 = L + g ∧
      BaseRF_Gap.gapDriftLength true g L 2 = L - g) := by
  refine ⟨?_, ?_, ?_⟩
  · intro n L h
    exact ⟨_, by rw [BaseRF_Gap.initParts, if_pos h]⟩
  · intro L
    rfl
  · intro g L
    refine ⟨rfl, ?_⟩
    show L + -g = L - g
    ring

/-- Witness for C7 at concrete inputs. -/
theorem claim_C7_rfgap_three_parts_witness :
    (∃ msg, BaseRF_Gap.initParts 4 1 = Except.error msg) ∧
    BaseRF_Gap.initParts 3 1 = Except.ok [1 / 2, 0, 1 / 2] ∧
    (BaseRF_Gap.gapDriftLength true (1/4) (1/2) 0 = 1/2 + 1/4 ∧
      BaseRF_Gap.gapDriftLength true (1/4) (1/2) 2 = 1/2 - 1/4) :=
  ⟨claim_C7_rfgap_three_parts.1 4 1 (by decide),
   claim_C7_rfgap_three_parts.2.1 1,
   claim_C7_rfgap_three_parts.2.2 (1/4) (1/2)⟩

/-- C8.  Construction does give both tilt children angle `0` (`0` and
`-0`), but every call to `setTiltAngle` raises `AttributeError` at source
line 546 (`self.__params` name-mangles to the never-defined
`_LinacNode__params`) before lines 547-548 run, so neither tilt child is
ever updated: at the concrete input `LinacNode.create "q"` with angle
`1/2`, and in fact at every input, the call errors and leaves the node -
and both children's angles - unchanged, against the claim that the
entrance child ends with `theta` and the exit child with `-theta`. -/
theorem claim_C8_tilt_update_attribute_error :
    (∀ name : String,
      (LinacNode.create name).tiltNodeIN.angle = 0 ∧
      (LinacNode.create name).tiltNodeOUT.angle = -0) ∧
    (∀ (node : LinacNode) (angle : ℚ),
      node.setTiltAngle angle =
        (node, Except.error
          "AttributeError: LinacNode instance has no attribute _LinacNode__params")) ∧
    ((LinacNode.create "q").setTiltAngle (1/2)).1.tiltNodeIN.angle = 0 ∧
    ((LinacNode.create "q").setTiltAngle (1/2)).1.tiltNodeOUT.angle = 0 := by
  refine ⟨?_, ?_, rfl, rfl⟩
  · intro name
    exact ⟨rfl, by norm_num [LinacNode.create]⟩
  · intro node angle
    rfl

/-- C9.  `trackDesignBunch` propagates a fresh empty copy of the supplied
bunch: the caller's bunch (heap slot `bid`) is unchanged - in particular its
particle list - and the node effects are applied to the empty copy with its
sync time reset; `trackBunch` instead applies the node effects to the
supplied bunch itself. -/
theorem claim_C9_design_tracks_empty_copy (effects : List (Bunch → Bunch))
    (heap : ℕ → Bunch) (bid newId : ℕ) (h : newId ≠ bid) :
    LinacAccLattice.trackDesignBunch effects heap bid newId bid = heap bid ∧
    (LinacAccLattice.trackDesignBunch effects heap bid newId bid).particles
      = (heap bid).particles ∧
    LinacAccLattice.trackDesignBunch effects heap bid newId newId
      = runNodes effects { copyEmptyBunch (heap bid) with syncTime := 0 } ∧
    LinacAccLattice.trackBunch effects heap bid bid
      = runNodes effects { heap bid with syncTime := 0 } := by
  have hb : LinacAccLattice.trackDesignBunch effects heap bid newId bid = heap bid := by
    simp [LinacAccLattice.trackDesignBunch, Function.update_noteq (Ne.symm h)]
  refine ⟨hb, by rw [hb], ?_, ?_⟩
  · simp [LinacAccLattice.trackDesignBunch, Function.update_same]
  · simp [LinacAccLattice.trackBunch, Function.update_same]

/-- Witness for C9 at a concrete heap, bunch and id pair. -/
theorem claim_C9_design_tracks_empty_copy_witness :
    LinacAccLattice.trackDesignBunch [] (fun _ => (⟨[(1, 2, 3, 4, 5, 6)], 7, 8⟩ : Bunch)) 0 1 0
      = (⟨[(1, 2, 3, 4, 5, 6)], 7, 8⟩ : Bunch) ∧
    (LinacAccLattice.trackDesignBunch [] (fun _ => (⟨[(1, 2, 3, 4, 5, 6)], 7, 8⟩ : Bunch)) 0 1 0).particles
      = [(1, 2, 3, 4, 5, 6)] :=
  ⟨(claim_C9_design_tracks_empty_copy [] _ 0 1 (by decide)).1,
   (claim_C9_design_tracks_empty_copy [] _ 0 1 (by decide)).2.1⟩

/-- C10.  `getRF_Cavity` and `getSequence` return the first stored cavity /
sequence whose name equals the argument, and return `None` rather than
failing when no stored entry has that name. -/
theorem claim_C10_name_lookup :
    (∀ (cavs : List RF_Cavity) (nm : String),
      LinacAccLattice.getRF_Cavity cavs nm = none ↔ ∀ c ∈ cavs, c.name ≠ nm) ∧
    (∀ (cavs : List RF_Cavity) (nm : String) (c : RF_Cavity),
      LinacAccLattice.getRF_Cavity cavs nm = some c →
        c.name = nm ∧ ∃ pre post, cavs = pre ++ c :: post ∧ ∀ c2 ∈ pre, c2.name ≠ nm) ∧
    (∀ (seqs : List Sequence) (nm : String),
      LinacAccLattice.getSequence seqs nm = none ↔ ∀ s ∈ seqs, s.name ≠ nm) ∧
    (∀ (seqs : List Sequence) (nm : String) (s : Sequence),
      LinacAccLattice.getSequence seqs nm = some s →
        s.name = nm ∧ ∃ pre post, seqs = pre ++ s :: post ∧ ∀ s2 ∈ pre, s2.name ≠ nm) :=
  ⟨getRF_Cavity_none_iff, getRF_Cavity_some_first, getSequence_none_iff, getSequence_some_first⟩

/-- Witness for C10 at concrete cavity and sequence lists. -/
theorem claim_C10_name_lookup_witness :
    LinacAccLattice.getRF_Cavity [RF_Cavity.create "a"] "z" = none ∧
    ((RF_Cavity.create "a").name = "a" ∧
      ∃ pre post, [RF_Cavity.create "b", RF_Cavity.create "a"]
        = pre ++ RF_Cavity.create "a" :: post ∧ ∀ c2 ∈ pre, c2.name ≠ "a") ∧
    LinacAccLattice.getSequence [(⟨"s", 0, 1⟩ : Sequence)] "z" = none ∧
    ((⟨"s", 0, 1⟩ : Sequence).name = "s" ∧
      ∃ pre post, [(⟨"s", 0, 1⟩ : Sequence)] = pre ++ (⟨"s", 0, 1⟩ : Sequence) :: post ∧
        ∀ s2 ∈ pre, s2.name ≠ "s") := by
  refine ⟨?_, ?_, ?_, ?_⟩
  · refine (claim_C10_name_lookup.1 [RF_Cavity.create "a"] "z").mpr ?_
    intro c hc
    rw [List.mem_singleton] at hc
    subst hc
    intro hh
    simp [RF_Cavity.create] at hh
  · exact claim_C10_name_lookup.2.1 [RF_Cavity.create "b", RF_Cavity.create "a"] "a"
      (RF_Cavity.create "a") rfl
  · refine (claim_C10_name_lookup.2.2.1 [(⟨"s", 0, 1⟩ : Sequence)] "z").mpr ?_
    intro s hs
    rw [List.mem_singleton] at hs
    subst hs
    intro hh
    simp at hh
  · exact claim_C10_name_lookup.2.2.2 [(⟨"s", 0, 1⟩ : Sequence)] "s" ⟨"s", 0, 1⟩ rfl

theorem setLengthAt_ok {l : List ℚ} {x : ℚ} {i : ℕ} (h : i < l.length) :
    setLengthAt l x i = Except.ok (l.set i x) := by
  rw [setLengthAt, if_pos h]

theorem applySteps_spec (l : List ℚ) (s : ℚ) (k : ℕ) (hk : k + 1 ≤ l.length) :
    ∃ l1, applySteps l s k = Except.ok l1 ∧ l1.length = l.length ∧
      ∀ j, l1[j]? = if 1 ≤ j ∧ j ≤ k then some s else l[j]? := by
  induction k with
  | zero =>
    refine ⟨l, rfl, rfl, fun j => ?_⟩
    rw [if_neg (by omega)]
  | succ k ih =>
    obtain ⟨l1, h1, hlen, hget⟩ := ih (by omega)
    have hk1 : k + 1 < l.length := by omega
    refine ⟨l1.set (k + 1) s, ?_, ?_, fun j => ?_⟩
    · show (match applySteps l s k with
        | Except.error msg => Except.error msg
        | Except.ok l2 => setLengthAt l2 s (k + 1)) = Except.ok (l1.set (k + 1) s)
      rw [h1]
      exact setLengthAt_ok (by rw [hlen]; exact hk1)
    · rw [List.length_set, hlen]
    · rcases eq_or_ne (k + 1) j with rfl | hne
      · rw [List.getElem?_set, if_pos rfl, if_pos (by rw [hlen]; exact hk1),
          if_pos (by omega)]
      · rw [List.getElem?_set, if_neg hne, hget j]
        by_cases hj : 1 ≤ j ∧ j ≤ k
        · rw [if_pos hj, if_pos (by omega)]
        · rw [if_neg hj, if_neg (by omega)]

theorem consReplicateConcat_getElem? (m : ℕ) (e t : ℚ) (j : ℕ) :
    (e :: (List.replicate m t ++ [e]))[j]? =
      if j = 0 then some e else if j ≤ m then some t
      else if j = m + 1 then some e else none := by
  rcases j with _ | j
  · simp
  · rw [List.getElem?_cons_succ]
    by_cases hj : j < m
    · rw [List.getElem?_append_left (by simpa using hj), List.getElem?_replicate, if_pos hj,
        if_neg (by omega), if_pos (by omega)]
    · have hj2 : m ≤ j := by omega
      rw [List.getElem?_append_right (by simpa using hj2), List.length_replicate]
      rcases eq_or_ne j m with rfl | hne
      · rw [Nat.sub_self, if_neg (by omega), if_neg (by omega), if_pos rfl]
        rfl
      · obtain ⟨i, hi⟩ : ∃ i, j - m = i + 1 := ⟨j - m - 1, by omega⟩
        rw [hi, List.getElem?_cons_succ, if_neg (by omega), if_neg (by omega),
          if_neg (by omega)]
        rfl

/-- C6.  For every quad of length `L` whose `initialize` succeeds with part
count `n`, the two edge parts each have length `L/(n-1)/2`, every interior
part has length `L/(n-1)`, the edges are equal and half the interior
length, and the parts sum to `L`. -/
theorem claim_C6_quad_part_lengths (L : ℚ) (n : ℕ) (parts : List ℚ)
    (h : Quad.initParts n L = Except.ok parts) :
    parts.length = n ∧
    parts.getD 0 0 = L / ((n : ℚ) - 1) / 2 ∧
    parts.getD (n - 1) 0 = L / ((n : ℚ) - 1) / 2 ∧
    (∀ i, 0 < i → i < n - 1 → parts.getD i 0 = L / ((n : ℚ) - 1)) ∧
    parts.getD 0 0 = parts.getD (n - 1) 0 ∧
    2 * parts.getD 0 0 = L / ((n : ℚ) - 1) ∧
    parts.sum = L := by
  rcases n with _ | _ | m
  · rw [Quad.initParts, if_neg (by omega)] at h
    simp [setLengthAt] at h
  · rw [Quad.initParts, if_pos (by omega)] at h
    exact absurd h (by simp)
  · simp only [show m + 1 + 1 = m + 2 from rfl] at h ⊢
    have hguard : ¬((m + 2 < 2) ∧ (m + 2) % 2 ≠ 0) := by omega
    have h00 : (0 : ℕ) < (List.replicate (m + 2) (0:ℚ)).length := by simp
    rw [Quad.initParts, if_neg hguard, setLengthAt_ok h00] at h
    simp only [] at h
    have h01 : (m + 2 - 1 : ℕ) <
        ((List.replicate (m + 2) (0:ℚ)).set 0 (L / (((m + 2 : ℕ) : ℚ) - 1) / 2)).length := by
      simp
    rw [setLengthAt_ok h01] at h
    simp only [] at h
    rw [show (m + 2 - 2 : ℕ) = m from rfl, show (m + 2 - 1 : ℕ) = m + 1 from rfl] at h
    set X : ℚ := L / (((m + 2 : ℕ) : ℚ) - 1) / 2 with hX
    obtain ⟨l1, h1, hlen, hget⟩ :=
      applySteps_spec (((List.replicate (m + 2) (0:ℚ)).set 0 X).set (m + 1) X) (X + X) m
        (by rw [List.length_set, List.length_set, List.length_replicate]; omega)
    rw [h1] at h
    have hlp : parts = l1 := by
      injection h with hh
      exact hh.symm
    subst hlp
    have hcell : ∀ j : ℕ, parts[j]? =
        (X :: (List.replicate m (X + X) ++ [X]))[j]? := by
      intro j
      rw [consReplicateConcat_getElem? m X (X + X) j, hget j]
      rcases Nat.eq_zero_or_pos j with rfl | hj0
      · rw [if_neg (by omega), if_pos rfl]
        rw [List.getElem?_set, if_neg (by omega), List.getElem?_set, if_pos rfl,
          if_pos (by simp)]
      · by_cases hjm : j ≤ m
        · rw [if_pos (by omega), if_neg (by omega), if_pos hjm]
        · rw [if_neg (by omega), if_neg (by omega)]
          rcases eq_or_ne j (m + 1) with rfl | hne
          · rw [if_pos rfl, List.getElem?_set, if_pos rfl, if_pos (by simp)]
            rw [if_neg hjm]
          · rw [if_neg hne, List.getElem?_set, if_neg (by omega), List.getElem?_set,
              if_neg (by omega), List.getElem?_replicate, if_neg (by omega)]
            rw [if_neg hjm]
    have hparts : parts = X :: (List.replicate m (X + X) ++ [X]) :=
      List.ext_getElem? hcell
    subst hparts
    have hd : ((m : ℚ) + 1) ≠ 0 := by positivity
    have hcast : (((m + 2 : ℕ) : ℚ) - 1) = (m : ℚ) + 1 := by push_cast; ring
    have hgetD : ∀ j : ℕ, (X :: (List.replicate m (X + X) ++ [X])).getD j 0 =
        (if j = 0 then some X else if j ≤ m then some (X + X)
          else if j = m + 1 then some X else none).getD 0 := by
      intro j
      rw [List.getD_eq_getElem?_getD, consReplicateConcat_getElem?]
    refine ⟨?_, ?_, ?_, ?_, ?_, ?_, ?_⟩
    · simp
    · rw [hgetD 0, if_pos rfl]
      rfl
    · rw [show (m + 2 - 1 : ℕ) = m + 1 from rfl, hgetD (m + 1), if_neg (by omega),
        if_neg (by omega), if_pos rfl]
      rfl
    · intro i hi0 him
      rw [show (m + 2 - 1 : ℕ) = m + 1 from rfl] at him
      rw [hgetD i, if_neg (by omega), if_pos (by omega)]
      show X + X = L / (((m + 2 : ℕ) : ℚ) - 1)
      rw [hX]
      ring
    · rw [hgetD 0, if_pos rfl, show (m + 2 - 1 : ℕ) = m + 1 from rfl, hgetD (m + 1),
        if_neg (by omega), if_neg (by omega), if_pos rfl]
    · rw [hgetD 0, if_pos rfl]
      show 2 * ((if (0:ℕ) = 0 then some X else if (0:ℕ) ≤ m then some (X + X)
          else if (0:ℕ) = m + 1 then some X else none).getD 0)
        = L / (((m + 2 : ℕ) : ℚ) - 1)
      rw [if_pos rfl]
      show 2 * X = L / (((m + 2 : ℕ) : ℚ) - 1)
      rw [hX]
      ring
    · rw [List.sum_cons, List.sum_append, List.sum_replicate, nsmul_eq_mul]
      rw [show ([X] : List ℚ).sum = X by simp]
      rw [hX, hcast]
      field_simp
      ring

/-- Witness for C6: a quad of length 1 split into 4 parts. -/
theorem claim_C6_quad_part_lengths_witness :
    Quad.initParts 4 1 = Except.ok [1/6, 1/3, 1/3, 1/6] ∧
    ([1/6, 1/3, 1/3, 1/6] : List ℚ).sum = 1 ∧
    (2 : ℚ) * ([1/6, 1/3, 1/3, 1/6] : List ℚ).getD 0 0 = 1 / ((4 : ℚ) - 1) := by
  have hok : Quad.initParts 4 1 = Except.ok [1/6, 1/3, 1/3, 1/6] := by
    rw [Quad.initParts, if_neg (by omega)]
    norm_num [setLengthAt, applySteps]
    simp [List.replicate_succ, List.set_cons_zero, List.set_cons_succ]
  have hmain := claim_C6_quad_part_lengths 1 4 [1/6, 1/3, 1/3, 1/6] hok
  exact ⟨hok, by norm_num [hmain.2.2.2.2.2.2], by norm_num [hmain.2.2.2.2.2.1]⟩

/-- C1.  At a concrete first gap: the design pass records the bunch sync
time (3) as `designArrivalTime` but leaves `isDesignSetUp = false` - the
source never calls `setDesignSetUp`, so the cavity never reaches the
DESIGN-REFERENCED state; and the subsequent operational pass raises
`AttributeError` at `rfCavity.frequency()` (line 1035) before recording the
actual arrival time (`firstGapTime` stays `0`) or computing any phase. -/
theorem claim_C1_first_gap_design_state_bug :
    ((⟨"Gap1", 0, 0, 0, true⟩ : BaseRF_Gap).trackDesignPart1
        ⟨"Cav1", 2, 0, 1, 0, 1, 0, 0, false, []⟩ ⟨[], 3, 0⟩).1
      = ⟨"Cav1", 2, 0, 1, 0, 1, 0, 3, false, []⟩ ∧
    ((⟨"Gap1", 0, 0, 0, true⟩ : BaseRF_Gap).trackPart1
        ⟨"Cav1", 2, 0, 1, 0, 1, 0, 3, false, []⟩ ⟨[], 5, 0⟩)
      = (⟨"Cav1", 2, 0, 1, 0, 1, 0, 3, false, []⟩,
         Except.error "AttributeError: RF_Cavity instance has no attribute frequency") :=
  ⟨rfl, rfl⟩

/-- C2.  At a non-first gap with the claim's literal data (frequency
4e8 Hz, sync time 1.25e-9 s, reference phase 0), the operational pass
raises `AttributeError` at `rfCavity.frequency()` (line 1035) - and past
that point it would read the local `syncPart` before its assignment (line
1046) - so no phase is computed at all, let alone the claimed
`fmod(frequency*(t_i - t_1)*2*pi + phase_ref, 2*pi)`. -/
theorem claim_C2_nonfirst_gap_track_bug :
    ((⟨"Gap2", 0, 0, 0, false⟩ : BaseRF_Gap).trackPart1
        ⟨"Cav2", 400000000, 0, 1, 0, 1, 0, 0, false, []⟩ ⟨[], 125 / 100000000000, 0⟩)
      = (⟨"Cav2", 400000000, 0, 1, 0, 1, 0, 0, false, []⟩,
         Except.error "AttributeError: RF_Cavity instance has no attribute frequency") :=
  rfl

/-- C4 counterexample.  With the interleaved element list
`g1 -> cavity A, g2 -> cavity B, g3 -> cavity A`, the third gap - naming
cavity `A` - is appended to the most recently created cavity `B` (source
line 243 reads `accRF_Cavs[len(accRF_Cavs) - 1]`): cavity `A` ends with
gaps `[g1]` and cavity `B` with `[g2, g3]`, refuting the claim that each
later gap joins the cavity of its own name even when interleaved. -/
theorem claim_C4_interleaved_counterexample :
    (processRFGaps 1 [⟨"g1", "A", 0, 0, 0⟩, ⟨"g2", "B", 0, 0, 0⟩,
        ⟨"g3", "A", 0, 0, 0⟩]).2.map (fun c => (c.name, c.rfGaps.map (fun g => g.name)))
      = [("A", ["g1"]), ("B", ["g2", "g3"])] ∧
    ∀ c ∈ (processRFGaps 1 [⟨"g1", "A", 0, 0, 0⟩, ⟨"g2", "B", 0, 0, 0⟩,
        ⟨"g3", "A", 0, 0, 0⟩]).2, c.name = "A" → "g3" ∉ c.rfGaps.map (fun g => g.name) := by
  have hmap : (processRFGaps 1 [⟨"g1", "A", 0, 0, 0⟩, ⟨"g2", "B", 0, 0, 0⟩,
      ⟨"g3", "A", 0, 0, 0⟩]).2.map (fun c => (c.name, c.rfGaps.map (fun g => g.name)))
      = [("A", ["g1"]), ("B", ["g2", "g3"])] := rfl
  refine ⟨hmap, ?_⟩
  intro c hc hcA
  have hfc : (c.name, c.rfGaps.map (fun g => g.name))
      ∈ [("A", ["g1"]), ("B", ["g2", "g3"])] := by
    rw [← hmap]
    exact List.mem_map_of_mem _ hc
  rcases List.mem_cons.mp hfc with hfc | hfc
  · have hgaps : c.rfGaps.map (fun g => g.name) = ["g1"] := (Prod.mk.injEq _ _ _ _ ▸ hfc).2
    rw [hgaps]
    simp
  · rw [List.mem_singleton] at hfc
    have : c.name = "B" := (Prod.mk.injEq _ _ _ _ ▸ hfc).1
    rw [hcA] at this
    exact absurd this (by simp)

theorem addRF_GapNode_firstFlag (cav : RF_Cavity) (g : BaseRF_Gap)
    (h : FirstFlagOK cav) : FirstFlagOK (cav.addRF_GapNode g) := by
  obtain ⟨g0, gs, hgaps, hg0, hgs⟩ := h
  refine ⟨g0, gs ++ [{ g with isFirstGap := cav.rfGaps.isEmpty }], ?_, hg0, ?_⟩
  · show cav.rfGaps ++ [{ g with isFirstGap := cav.rfGaps.isEmpty }] = _
    rw [hgaps]
    rfl
  · intro g2 hg2
    rcases List.mem_append.mp hg2 with hg2 | hg2
    · exact hgs g2 hg2
    · rw [List.mem_singleton] at hg2
      subst hg2
      show cav.rfGaps.isEmpty = false
      rw [hgaps]
      rfl

theorem addRF_GapNode_first_of_empty (cav : RF_Cavity) (g : BaseRF_Gap)
    (h : cav.rfGaps = []) : FirstFlagOK (cav.addRF_GapNode g) := by
  refine ⟨{ g with isFirstGap := cav.rfGaps.isEmpty }, [], ?_, ?_, by simp⟩
  · show cav.rfGaps ++ [{ g with isFirstGap := cav.rfGaps.isEmpty }] = _
    rw [h]
    rfl
  · show cav.rfGaps.isEmpty = true
    rw [h]
    rfl

theorem factoryStep_firstFlag (freq : ℝ) (st : List String × List RF_Cavity)
    (e : ParsedGapElem) (h : ∀ cav ∈ st.2, FirstFlagOK cav) :
    ∀ cav ∈ (factoryStepRFGap freq st e).2, FirstFlagOK cav := by
  intro cav hcav
  simp only [factoryStepRFGap] at hcav
  by_cases hm : e.parentCavity ∈ st.1
  · rw [if_pos hm] at hcav
    rcases hlast : st.2.getLast? with _ | lastCav
    · rw [hlast] at hcav
      exact h cav hcav
    · rw [hlast] at hcav
      rcases List.mem_append.mp hcav with hc | hc
      · exact h cav (List.mem_of_mem_dropLast hc)
      · rw [List.mem_singleton] at hc
        subst hc
        exact addRF_GapNode_firstFlag _ _ (h lastCav (List.mem_of_mem_getLast? hlast))
  · rw [if_neg hm] at hcav
    rcases List.mem_append.mp hcav with hc | hc
    · exact h cav hc
    · rw [List.mem_singleton] at hc
      subst hc
      exact addRF_GapNode_first_of_empty _ _ rfl

theorem foldl_factoryStep_firstFlag (freq : ℝ) (elems : List ParsedGapElem) :
    ∀ st : List String × List RF_Cavity, (∀ cav ∈ st.2, FirstFlagOK cav) →
      ∀ cav ∈ (elems.foldl (factoryStepRFGap freq) st).2, FirstFlagOK cav := by
  induction elems with
  | nil =>
    intro st h
    simpa using h
  | cons e rest ih =>
    intro st h
    rw [List.foldl_cons]
    exact ih _ (factoryStep_firstFlag freq st e h)

/-- C4 amended.  The first RF-gap element naming a cavity creates that
cavity (frequency from the sequence RF frequency, design and actual phase
from the gap's `firstPhase` converted to radians) with the gap appended and
flagged first; every later RF-gap element whose cavity name was already
seen is appended to the most recently created cavity - not in general the
same-named cavity - and, since every created cavity already holds its
creating gap, such a later gap is never flagged as first. -/
theorem claim_C4_cavity_grouping_amended :
    (∀ (freq : ℝ) (names : List String) (cavs : List RF_Cavity) (e : ParsedGapElem),
      e.parentCavity ∉ names →
      factoryStepRFGap freq (names, cavs) e =
        (names ++ [e.parentCavity],
         cavs ++ [⟨e.parentCavity, freq, (Real.pi / 180) * e.firstPhase, 1,
            (Real.pi / 180) * e.firstPhase, 1, 0, 0, false,
            [⟨e.name, (1 / 1000) * e.E0TL, e.modePhase,
              (Real.pi / 180) * e.firstPhase, true⟩]⟩])) ∧
    (∀ (freq : ℝ) (names : List String) (cavs : List RF_Cavity) (c : RF_Cavity)
        (e : ParsedGapElem),
      e.parentCavity ∈ names →
      factoryStepRFGap freq (names, cavs ++ [c]) e =
        (names, cavs ++ [c.addRF_GapNode
          ⟨e.name, (1 / 1000) * e.E0TL, e.modePhase, e.firstPhase, false⟩])) ∧
    (∀ (c : RF_Cavity) (g : BaseRF_Gap), c.rfGaps ≠ [] →
      (c.addRF_GapNode g).rfGaps = c.rfGaps ++ [{ g with isFirstGap := false }]) ∧
    (∀ (freq : ℝ) (elems : List ParsedGapElem),
      ∀ cav ∈ (processRFGaps freq elems).2, FirstFlagOK cav) := by
  refine ⟨?_, ?_, ?_, ?_⟩
  · intro freq names cavs e hm
    simp only [factoryStepRFGap]
    rw [if_neg hm]
    rfl
  · intro freq names cavs c e hm
    simp only [factoryStepRFGap]
    rw [if_pos hm, List.getLast?_concat]
    simp [List.dropLast_concat]
  · intro c g h
    cases hc : c.rfGaps with
    | nil => exact absurd hc h
    | cons a t =>
      show c.rfGaps ++ [{ g with isFirstGap := c.rfGaps.isEmpty }] = _
      rw [hc]
      rfl
  · intro freq elems
    simpa [processRFGaps] using
      foldl_factoryStep_firstFlag freq elems ([], []) (by simp)

/-- Witness for the amended C4 at concrete inputs. -/
theorem claim_C4_cavity_grouping_amended_witness :
    factoryStepRFGap 1 ([], []) ⟨"g1", "A", 0, 0, 0⟩ =
      (["A"], [⟨"A", 1, (Real.pi / 180) * 0, 1, (Real.pi / 180) * 0, 1, 0, 0, false,
        [⟨"g1", (1 / 1000) * 0, 0, (Real.pi / 180) * 0, true⟩]⟩]) ∧
    factoryStepRFGap 1 (["A", "B"],
        [] ++ [⟨"B", 1, 0, 1, 0, 1, 0, 0, false,
          [⟨"g2", 0, 0, 0, true⟩]⟩]) ⟨"g3", "A", 0, 0, 0⟩ =
      (["A", "B"], [] ++ [(⟨"B", 1, 0, 1, 0, 1, 0, 0, false,
          [⟨"g2", 0, 0, 0, true⟩]⟩ : RF_Cavity).addRF_GapNode
            ⟨"g3", (1 / 1000) * 0, 0, 0, false⟩]) ∧
    ((⟨"B", 1, 0, 1, 0, 1, 0, 0, false, [⟨"g2", 0, 0, 0, true⟩]⟩ : RF_Cavity).addRF_GapNode
        ⟨"g3", 0, 0, 0, true⟩).rfGaps
      = [⟨"g2", 0, 0, 0, true⟩] ++ [⟨"g3", 0, 0, 0, false⟩] ∧
    FirstFlagOK ⟨"A", 1, (Real.pi / 180) * 0, 1, (Real.pi / 180) * 0, 1, 0, 0, false,
        [⟨"g1", (1 / 1000) * 0, 0, (Real.pi / 180) * 0, true⟩]⟩ := by
  refine ⟨?_, ?_, ?_, ?_⟩
  · exact claim_C4_cavity_grouping_amended.1 1 [] [] ⟨"g1", "A", 0, 0, 0⟩ (by simp)
  · exact claim_C4_cavity_grouping_amended.2.1 1 ["A", "B"] []
      ⟨"B", 1, 0, 1, 0, 1, 0, 0, false, [⟨"g2", 0, 0, 0, true⟩]⟩
      ⟨"g3", "A", 0, 0, 0⟩ (by simp)
  · exact claim_C4_cavity_grouping_amended.2.2.1
      ⟨"B", 1, 0, 1, 0, 1, 0, 0, false, [⟨"g2", 0, 0, 0, true⟩]⟩
      ⟨"g3", 0, 0, 0, true⟩ (by simp)
  · refine claim_C4_cavity_grouping_amended.2.2.2 1 [⟨"g1", "A", 0, 0, 0⟩]
      _ ?_
    show _ ∈ [(⟨"A", 1, (Real.pi / 180) * 0, 1, (Real.pi / 180) * 0, 1, 0, 0, false,
        [⟨"g1", (1 / 1000) * 0, 0, (Real.pi / 180) * 0, true⟩]⟩ : RF_Cavity)]
    exact List.mem_singleton.mpr rfl

theorem zeroDistance_pos : (0 : ℚ) < zeroDistance := by
  norm_num [zeroDistance]

theorem midDrifts_cons_eq (a b : GNode) (rest : List GNode) :
    midDrifts (a :: b :: rest) =
      if gDist a b < 0 then Except.error "two nodes are overlapping"
      else
        match midDrifts (b :: rest) with
        | Except.error msg => Except.error msg
        | Except.ok tail =>
          if zeroDistance < gDist a b then Except.ok (a :: mkDrift a (gDist a b) :: tail)
          else Except.ok (a :: tail) := rfl

theorem midDrifts_cons_neg (a b : GNode) (rest : List GNode) (hneg : gDist a b < 0) :
    midDrifts (a :: b :: rest) = Except.error "two nodes are overlapping" := by
  rw [midDrifts_cons_eq, if_pos hneg]

theorem midDrifts_cons_err (a b : GNode) (rest : List GNode) (msg : String)
    (hm : midDrifts (b :: rest) = Except.error msg) (hneg : ¬ gDist a b < 0) :
    midDrifts (a :: b :: rest) = Except.error msg := by
  rw [midDrifts_cons_eq, if_neg hneg, hm]

theorem midDrifts_cons_ok (a b : GNode) (rest tail : List GNode)
    (hm : midDrifts (b :: rest) = Except.ok tail) (hneg : ¬ gDist a b < 0) :
    midDrifts (a :: b :: rest) =
      if zeroDistance < gDist a b then Except.ok (a :: mkDrift a (gDist a b) :: tail)
      else Except.ok (a :: tail) := by
  rw [midDrifts_cons_eq, if_neg hneg, hm]

theorem midDrifts_head {a : GNode} {t r : List GNode}
    (h : midDrifts (a :: t) = Except.ok r) : ∃ t2, r = a :: t2 := by
  cases t with
  | nil =>
    rw [show midDrifts [a] = Except.ok [a] from rfl] at h
    injection h with h
    exact ⟨[], h.symm⟩
  | cons b rest =>
    by_cases hneg : gDist a b < 0
    · rw [midDrifts_cons_neg a b rest hneg] at h
      exact absurd h (by simp)
    · rcases hm : midDrifts (b :: rest) with msg | tail
      · rw [midDrifts_cons_err a b rest msg hm hneg] at h
        exact absurd h (by simp)
      · rw [midDrifts_cons_ok a b rest tail hm hneg] at h
        by_cases hgt : zeroDistance < gDist a b
        · rw [if_pos hgt] at h
          injection h with h
          exact ⟨_, h.symm⟩
        · rw [if_neg hgt] at h
          injection h with h
          exact ⟨_, h.symm⟩

theorem midDrifts_last : ∀ (l r : List GNode), midDrifts l = Except.ok r →
    ∀ d, r.getLastD d = l.getLastD d := by
  intro l
  induction l with
  | nil =>
    intro r h d
    injection h with h
    rw [← h]
  | cons a t ih =>
    intro r h d
    cases t with
    | nil =>
      rw [show midDrifts [a] = Except.ok [a] from rfl] at h
      injection h with h
      rw [← h]
    | cons b rest =>
      by_cases hneg : gDist a b < 0
      · rw [midDrifts_cons_neg a b rest hneg] at h
        exact absurd h (by simp)
      · rcases hm : midDrifts (b :: rest) with msg | tail
        · rw [midDrifts_cons_err a b rest msg hm hneg] at h
          exact absurd h (by simp)
        · have hlast := ih tail hm
          rw [midDrifts_cons_ok a b rest tail hm hneg] at h
          by_cases hgt : zeroDistance < gDist a b
          · rw [if_pos hgt] at h
            injection h with h
            rw [← h]
            simp only [List.getLastD_cons]
            rw [hlast]
            simp only [List.getLastD_cons]
          · rw [if_neg hgt] at h
            injection h with h
            rw [← h]
            simp only [List.getLastD_cons]
            rw [hlast]
            simp only [List.getLastD_cons]

theorem midDrifts_chain : ∀ (l r : List GNode), midDrifts l = Except.ok r →
    List.Chain' edgeAdj r := by
  intro l
  induction l with
  | nil =>
    intro r h
    injection h with h
    rw [← h]
    exact List.chain'_nil
  | cons a t ih =>
    intro r h
    cases t with
    | nil =>
      rw [show midDrifts [a] = Except.ok [a] from rfl] at h
      injection h with h
      rw [← h]
      exact List.chain'_singleton a
    | cons b rest =>
      by_cases hneg : gDist a b < 0
      · rw [midDrifts_cons_neg a b rest hneg] at h
        exact absurd h (by simp)
      · rcases hm : midDrifts (b :: rest) with msg | tail
        · rw [midDrifts_cons_err a b rest msg hm hneg] at h
          exact absurd h (by simp)
        · obtain ⟨t2, rfl⟩ := midDrifts_head hm
          have hchain := ih _ hm
          have hd0 : 0 ≤ gDist a b := not_lt.mp hneg
          rw [midDrifts_cons_ok a b rest (b :: t2) hm hneg] at h
          by_cases hgt : zeroDistance < gDist a b
          · rw [if_pos hgt] at h
            injection h with h
            rw [← h]
            refine List.chain'_cons.mpr ⟨?_, List.chain'_cons.mpr ⟨?_, hchain⟩⟩
            · show |gTrailing a - gLeading (mkDrift a (gDist a b))| ≤ zeroDistance
              have hle : gLeading (mkDrift a (gDist a b)) = gTrailing a := by
                show a.pos + (a.len + gDist a b) / 2 - gDist a b / 2 = a.pos + a.len / 2
                ring
              rw [hle, sub_self, abs_zero]
              exact le_of_lt zeroDistance_pos
            · show |gTrailing (mkDrift a (gDist a b)) - gLeading b| ≤ zeroDistance
              have hte : gTrailing (mkDrift a (gDist a b)) = gLeading b := by
                show a.pos + (a.len + ((b.pos - b.len / 2) - (a.pos + a.len / 2))) / 2 +
                    ((b.pos - b.len / 2) - (a.pos + a.len / 2)) / 2 = b.pos - b.len / 2
                ring
              rw [hte, sub_self, abs_zero]
              exact le_of_lt zeroDistance_pos
          · rw [if_neg hgt] at h
            injection h with h
            rw [← h]
            refine List.chain'_cons.mpr ⟨?_, hchain⟩
            show |gTrailing a - gLeading b| ≤ zeroDistance
            have hnegd : gTrailing a - gLeading b = -(gDist a b) := by
              show a.pos + a.len / 2 - (b.pos - b.len / 2) =
                -((b.pos - b.len / 2) - (a.pos + a.len / 2))
              ring
            rw [hnegd, abs_neg, abs_of_nonneg hd0]
            exact not_lt.mp hgt

theorem frontCheck_cases (first : GNode) (front : List GNode)
    (h : frontCheck first = Except.ok front) :
    (front = [] ∧ |gLeading first| ≤ zeroDistance) ∨
    (∃ df, front = [df] ∧ gLeading df = 0 ∧ gTrailing df = gLeading first) := by
  rw [frontCheck] at h
  by_cases h1 : zeroDistance < |first.len / 2 - first.pos|
  · rw [if_pos h1] at h
    by_cases h2 : first.pos < first.len / 2
    · rw [if_pos h2] at h
      exact absurd h (by simp)
    · rw [if_neg h2] at h
      injection h with h
      refine Or.inr ⟨_, h.symm, ?_, ?_⟩
      · show (first.pos - first.len / 2) / 2 - (first.pos - first.len / 2) / 2 = 0
        ring
      · show (first.pos - first.len / 2) / 2 + (first.pos - first.len / 2) / 2 =
          first.pos - first.len / 2
        ring
  · rw [if_neg h1] at h
    injection h with h
    refine Or.inl ⟨h.symm, ?_⟩
    have habs : |gLeading first| = |first.len / 2 - first.pos| := by
      rw [show gLeading first = -(first.len / 2 - first.pos) by
        show first.pos - first.len / 2 = -(first.len / 2 - first.pos)
        ring, abs_neg]
    rw [habs]
    exact not_lt.mp h1

theorem backCheck_cases (seqLen : ℚ) (last : GNode) (back : List GNode)
    (h : backCheck seqLen last = Except.ok back) :
    (back = [] ∧ |gTrailing last - seqLen| ≤ zeroDistance) ∨
    (∃ db, back = [db] ∧ gLeading db = gTrailing last ∧ gTrailing db = seqLen) := by
  rw [backCheck] at h
  by_cases h1 : zeroDistance < |last.len / 2 + last.pos - seqLen|
  · rw [if_pos h1] at h
    by_cases h2 : seqLen < last.len / 2 + last.pos
    · rw [if_pos h2] at h
      exact absurd h (by simp)
    · rw [if_neg h2] at h
      injection h with h
      refine Or.inr ⟨_, h.symm, ?_, ?_⟩
      · show last.pos + (last.len + (seqLen - (last.pos + last.len / 2))) / 2 -
            (seqLen - (last.pos + last.len / 2)) / 2 = last.pos + last.len / 2
        ring
      · show last.pos + (last.len + (seqLen - (last.pos + last.len / 2))) / 2 +
            (seqLen - (last.pos + last.len / 2)) / 2 = seqLen
        ring
  · rw [if_neg h1] at h
    injection h with h
    refine Or.inl ⟨h.symm, ?_⟩
    have habs : |gTrailing last - seqLen| = |last.len / 2 + last.pos - seqLen| := by
      rw [show gTrailing last - seqLen = last.len / 2 + last.pos - seqLen by
        show last.pos + last.len / 2 - seqLen = last.len / 2 + last.pos - seqLen
        ring]
    rw [habs]
    exact not_lt.mp h1

theorem insertDrifts_cons_eq (seqLen : ℚ) (first : GNode) (rest : List GNode) :
    insertDrifts seqLen (first :: rest) =
      match frontCheck first with
      | Except.error msg => Except.error msg
      | Except.ok front =>
        match backCheck seqLen (rest.getLastD first) with
        | Except.error msg => Except.error msg
        | Except.ok back =>
          match midDrifts (first :: rest) with
          | Except.error msg => Except.error msg
          | Except.ok mids => Except.ok (front ++ mids ++ back) := rfl

theorem insertDrifts_ok_parts {seqLen : ℚ} {nodes res : List GNode}
    (h : insertDrifts seqLen nodes = Except.ok res) :
    ∃ first rest front back mids,
      nodes = first :: rest ∧
      frontCheck first = Except.ok front ∧
      backCheck seqLen (rest.getLastD first) = Except.ok back ∧
      midDrifts (first :: rest) = Except.ok mids ∧
      res = front ++ mids ++ back := by
  cases nodes with
  | nil =>
    rw [show insertDrifts seqLen ([] : List GNode) = Except.error "empty sequence"
      from rfl] at h
    exact absurd h (by simp)
  | cons first rest =>
    rw [insertDrifts_cons_eq] at h
    rcases hf : frontCheck first with msg | front
    · rw [hf] at h
      exact absurd h (by simp)
    · rw [hf] at h
      rcases hb : backCheck seqLen (rest.getLastD first) with msg | back
      · rw [hb] at h
        exact absurd h (by simp)
      · rw [hb] at h
        rcases hmm : midDrifts (first :: rest) with msg | mids
        · rw [hmm] at h
          exact absurd h (by simp)
        · rw [hmm] at h
          injection h with h
          exact ⟨first, rest, front, back, mids, rfl, hf, hb, hmm, h.symm⟩

theorem getLastD_irrel (v : List GNode) (h : v ≠ []) (d1 d2 : GNode) :
    v.getLastD d1 = v.getLastD d2 := by
  cases v with
  | nil => exact absurd rfl h
  | cons a t => rw [List.getLastD_cons, List.getLastD_cons]

theorem getLastD_append_right (v : List GNode) :
    ∀ (u : List GNode) (d : GNode), v ≠ [] → (u ++ v).getLastD d = v.getLastD d := by
  intro u
  induction u with
  | nil =>
    intro d _
    rfl
  | cons x u2 ih =>
    intro d hv
    rw [List.cons_append, List.getLastD_cons, ih x hv]
    exact getLastD_irrel v hv x d

theorem getLast?_cons_getLastD : ∀ (l : List GNode) (a : GNode),
    (a :: l).getLast? = some (l.getLastD a) := by
  intro l
  induction l with
  | nil => intro a; rfl
  | cons b t ih =>
    intro a
    rw [List.getLast?_cons_cons, ih b, List.getLastD_cons]

theorem insertDrifts_tiles (seqLen : ℚ) (nodes res : List GNode)
    (h : insertDrifts seqLen nodes = Except.ok res) : TilesWithin seqLen res := by
  obtain ⟨first, rest, front, back, mids, rfl, hf, hb, hm, rfl⟩ := insertDrifts_ok_parts h
  obtain ⟨t, rfl⟩ := midDrifts_head hm
  have hchain := midDrifts_chain _ _ hm
  have hlastm := midDrifts_last _ _ hm
  have hlasteq : ∀ d, (first :: t).getLastD d = rest.getLastD first := by
    intro d
    rw [hlastm d, List.getLastD_cons]
  unfold TilesWithin
  rcases frontCheck_cases first front hf with ⟨rfl, hfle⟩ | ⟨df, rfl, hfl0, hflt⟩ <;>
    rcases backCheck_cases seqLen (rest.getLastD first) back hb with
      ⟨rfl, hble⟩ | ⟨db, rfl, hbl, hbt⟩
  · simp only [List.nil_append, List.append_nil]
    refine ⟨by simp, ?_, ?_, hchain⟩
    · rw [show (first :: t).headD ⟨0, 0⟩ = first from rfl]
      exact hfle
    · rw [hlasteq ⟨0, 0⟩]
      exact hble
  · simp only [List.nil_append]
    refine ⟨by simp, ?_, ?_, ?_⟩
    · rw [show ((first :: t) ++ [db]).headD ⟨0, 0⟩ = first from rfl]
      exact hfle
    · rw [getLastD_append_right [db] (first :: t) ⟨0, 0⟩ (by simp)]
      rw [show ([db] : List GNode).getLastD ⟨0, 0⟩ = db from rfl, hbt, sub_self, abs_zero]
      exact le_of_lt zeroDistance_pos
    · refine List.Chain'.append hchain (List.chain'_singleton db) ?_
      intro x hx y hy
      rw [getLast?_cons_getLastD t first] at hx
      rw [show ([db] : List GNode).head? = some db from rfl] at hy
      have hxe : x = t.getLastD first := by
        have h3 := Option.mem_def.mp hx
        injection h3 with h3
        exact h3.symm
      have hye : y = db := by
        have h3 := Option.mem_def.mp hy
        injection h3 with h3
        exact h3.symm
      rw [hxe, hye]
      show |gTrailing (t.getLastD first) - gLeading db| ≤ zeroDistance
      have hteq : t.getLastD first = rest.getLastD first := by
        have h2 := hlasteq first
        rw [List.getLastD_cons] at h2
        exact h2
      rw [hteq, hbl, sub_self, abs_zero]
      exact le_of_lt zeroDistance_pos
  · simp only [List.append_nil]
    rw [show ([df] ++ (first :: t) : List GNode) = df :: first :: t from rfl]
    refine ⟨by simp, ?_, ?_, ?_⟩
    · rw [show (df :: first :: t).headD ⟨0, 0⟩ = df from rfl, hfl0, abs_zero]
      exact le_of_lt zeroDistance_pos
    · rw [List.getLastD_cons, hlasteq df]
      exact hble
    · refine List.chain'_cons.mpr ⟨?_, hchain⟩
      show |gTrailing df - gLeading first| ≤ zeroDistance
      rw [hflt, sub_self, abs_zero]
      exact le_of_lt zeroDistance_pos
  · refine ⟨by simp, ?_, ?_, ?_⟩
    · rw [show (([df] ++ (first :: t)) ++ [db]).headD ⟨0, 0⟩ = df from rfl, hfl0, abs_zero]
      exact le_of_lt zeroDistance_pos
    · rw [getLastD_append_right [db] ([df] ++ (first :: t)) ⟨0, 0⟩ (by simp)]
      rw [show ([db] : List GNode).getLastD ⟨0, 0⟩ = db from rfl, hbt, sub_self, abs_zero]
      exact le_of_lt zeroDistance_pos
    · refine List.Chain'.append ?_ (List.chain'_singleton db) ?_
      · rw [show ([df] ++ (first :: t) : List GNode) = df :: first :: t from rfl]
        refine List.chain'_cons.mpr ⟨?_, hchain⟩
        show |gTrailing df - gLeading first| ≤ zeroDistance
        rw [hflt, sub_self, abs_zero]
        exact le_of_lt zeroDistance_pos
      · intro x hx y hy
        rw [show ([df] ++ (first :: t) : List GNode) = df :: first :: t from rfl] at hx
        rw [getLast?_cons_getLastD (first :: t) df] at hx
        rw [show ([db] : List GNode).head? = some db from rfl] at hy
        have hxe : x = (first :: t).getLastD df := by
          have h3 := Option.mem_def.mp hx
          injection h3 with h3
          exact h3.symm
        have hye : y = db := by
          have h3 := Option.mem_def.mp hy
          injection h3 with h3
          exact h3.symm
        rw [hxe, hye]
        show |gTrailing ((first :: t).getLastD df) - gLeading db| ≤ zeroDistance
        rw [hlasteq df, hbl, sub_self, abs_zero]
        exact le_of_lt zeroDistance_pos

theorem midDrifts_err_of_neg : ∀ (pre : List GNode) (a b : GNode) (post : List GNode),
    gDist a b < 0 → ∃ msg, midDrifts (pre ++ a :: b :: post) = Except.error msg := by
  intro pre
  induction pre with
  | nil =>
    intro a b post hneg
    exact ⟨_, by rw [List.nil_append, midDrifts_cons_neg a b post hneg]⟩
  | cons x pre2 ih =>
    intro a b post hneg
    obtain ⟨msg, hmsg⟩ := ih a b post hneg
    obtain ⟨y, rest, hyr⟩ : ∃ y rest, pre2 ++ a :: b :: post = y :: rest := by
      cases pre2 with
      | nil => exact ⟨a, b :: post, rfl⟩
      | cons z zs => exact ⟨z, zs ++ a :: b :: post, rfl⟩
    by_cases hxy : gDist x y < 0
    · exact ⟨_, by rw [List.cons_append, hyr, midDrifts_cons_neg x y rest hxy]⟩
    · rw [hyr] at hmsg
      exact ⟨msg, by rw [List.cons_append, hyr, midDrifts_cons_err x y rest msg hmsg hxy]⟩

theorem insertDrifts_err_of_mids (seqLen : ℚ) (first : GNode) (rest : List GNode)
    (h : ∃ msg, midDrifts (first :: rest) = Except.error msg) :
    ∃ msg, insertDrifts seqLen (first :: rest) = Except.error msg := by
  obtain ⟨msg, hmsg⟩ := h
  rw [insertDrifts_cons_eq]
  rcases hf : frontCheck first with m1 | front
  · exact ⟨m1, rfl⟩
  · rcases hb : backCheck seqLen (rest.getLastD first) with m2 | back
    · exact ⟨m2, rfl⟩
    · rw [hmsg]
      exact ⟨msg, rfl⟩

theorem midDrifts_pair : ∀ (pre : List GNode) (a b : GNode) (post r : List GNode),
    midDrifts (pre ++ a :: b :: post) = Except.ok r →
    0 ≤ gDist a b ∧
    (zeroDistance < gDist a b →
      ∃ u v, r = u ++ a :: mkDrift a (gDist a b) :: b :: v) ∧
    (gDist a b ≤ zeroDistance → ∃ u v, r = u ++ a :: b :: v) := by
  intro pre
  induction pre with
  | nil =>
    intro a b post r h
    rw [List.nil_append] at h
    by_cases hneg : gDist a b < 0
    · rw [midDrifts_cons_neg a b post hneg] at h
      exact absurd h (by simp)
    · rcases hm : midDrifts (b :: post) with msg | tail
      · rw [midDrifts_cons_err a b post msg hm hneg] at h
        exact absurd h (by simp)
      · obtain ⟨t2, rfl⟩ := midDrifts_head hm
        rw [midDrifts_cons_ok a b post _ hm hneg] at h
        refine ⟨not_lt.mp hneg, ?_, ?_⟩
        · intro hgt
          rw [if_pos hgt] at h
          injection h with h
          exact ⟨[], t2, h.symm⟩
        · intro hle
          rw [if_neg (not_lt.mpr hle)] at h
          injection h with h
          exact ⟨[], t2, h.symm⟩
  | cons x pre2 ih =>
    intro a b post r h
    rw [List.cons_append] at h
    obtain ⟨y, rest, hyr⟩ : ∃ y rest, pre2 ++ a :: b :: post = y :: rest := by
      cases pre2 with
      | nil => exact ⟨a, b :: post, rfl⟩
      | cons z zs => exact ⟨z, zs ++ a :: b :: post, rfl⟩
    rw [hyr] at h
    by_cases hneg : gDist x y < 0
    · rw [midDrifts_cons_neg x y rest hneg] at h
      exact absurd h (by simp)
    · rcases hm : midDrifts (y :: rest) with msg | tail
      · rw [midDrifts_cons_err x y rest msg hm hneg] at h
        exact absurd h (by simp)
      · have hih := ih a b post tail (by rw [hyr]; exact hm)
        rw [midDrifts_cons_ok x y rest tail hm hneg] at h
        refine ⟨hih.1, ?_, ?_⟩
        · intro hgt
          obtain ⟨u, v, huv⟩ := hih.2.1 hgt
          by_cases hxy : zeroDistance < gDist x y
          · rw [if_pos hxy] at h
            injection h with h
            exact ⟨x :: mkDrift x (gDist x y) :: u, v, by rw [← h, huv]; rfl⟩
          · rw [if_neg hxy] at h
            injection h with h
            exact ⟨x :: u, v, by rw [← h, huv]; rfl⟩
        · intro hle
          obtain ⟨u, v, huv⟩ := hih.2.2 hle
          by_cases hxy : zeroDistance < gDist x y
          · rw [if_pos hxy] at h
            injection h with h
            exact ⟨x :: mkDrift x (gDist x y) :: u, v, by rw [← h, huv]; rfl⟩
          · rw [if_neg hxy] at h
            injection h with h
            exact ⟨x :: u, v, by rw [← h, huv]; rfl⟩

/-- C3.  For every node list the drift-synthesis step accepts, the resulting
nodes tile `[0, seqLen]` within the zero-distance epsilon (first leading
edge at 0, last trailing edge at the sequence length, adjacent edges
coinciding); a negative inter-node gap is a fatal error; a gap above the
epsilon is filled by a drift of exactly that span whose edges exactly abut
its neighbours; and a gap within the epsilon inserts no drift (the two
nodes stay adjacent in the output). -/
theorem claim_C3_drift_synthesis_tiling :
    (∀ (seqLen : ℚ) (nodes res : List GNode),
      insertDrifts seqLen nodes = Except.ok res → TilesWithin seqLen res) ∧
    (∀ (seqLen : ℚ) (pre post : List GNode) (a b : GNode),
      gDist a b < 0 →
      ∃ msg, insertDrifts seqLen (pre ++ a :: b :: post) = Except.error msg) ∧
    (∀ (seqLen : ℚ) (pre post : List GNode) (a b : GNode) (res : List GNode),
      insertDrifts seqLen (pre ++ a :: b :: post) = Except.ok res →
      zeroDistance < gDist a b →
      (∃ u v, res = u ++ a :: mkDrift a (gDist a b) :: b :: v) ∧
      (mkDrift a (gDist a b)).len = gDist a b ∧
      gLeading (mkDrift a (gDist a b)) = gTrailing a ∧
      gTrailing (mkDrift a (gDist a b)) = gLeading b) ∧
    (∀ (seqLen : ℚ) (pre post : List GNode) (a b : GNode) (res : List GNode),
      insertDrifts seqLen (pre ++ a :: b :: post) = Except.ok res →
      gDist a b ≤ zeroDistance → ∃ u v, res = u ++ a :: b :: v) := by
  refine ⟨insertDrifts_tiles, ?_, ?_, ?_⟩
  · intro seqLen pre post a b hneg
    have hmid := midDrifts_err_of_neg pre a b post hneg
    cases pre with
    | nil =>
      exact insertDrifts_err_of_mids seqLen a (b :: post) (by simpa using hmid)
    | cons x pre2 =>
      exact insertDrifts_err_of_mids seqLen x (pre2 ++ a :: b :: post)
        (by simpa using hmid)
  · intro seqLen pre post a b res h hgt
    obtain ⟨first, rest, front, back, mids, hnodes, hf, hb, hm, hres⟩ :=
      insertDrifts_ok_parts h
    have hpair := midDrifts_pair pre a b post mids (by rw [hnodes]; exact hm)
    obtain ⟨u, v, huv⟩ := hpair.2.1 hgt
    refine ⟨⟨front ++ u, v ++ back, ?_⟩, rfl, ?_, ?_⟩
    · rw [hres, huv]
      simp [List.append_assoc]
    · show a.pos + (a.len + gDist a b) / 2 - gDist a b / 2 = a.pos + a.len / 2
      ring
    · show a.pos + (a.len + ((b.pos - b.len / 2) - (a.pos + a.len / 2))) / 2 +
          ((b.pos - b.len / 2) - (a.pos + a.len / 2)) / 2 = b.pos - b.len / 2
      ring
  · intro seqLen pre post a b res h hle
    obtain ⟨first, rest, front, back, mids, hnodes, hf, hb, hm, hres⟩ :=
      insertDrifts_ok_parts h
    have hpair := midDrifts_pair pre a b post mids (by rw [hnodes]; exact hm)
    obtain ⟨u, v, huv⟩ := hpair.2.2 hle
    refine ⟨front ++ u, v ++ back, ?_⟩
    rw [hres, huv]
    simp [List.append_assoc]

/-- Witness for C3: a two-node sequence of length 10 producing an inner
drift and an end drift, an overlapping pair that is rejected, and a pair
separated by `1/300000 < zeroDistance` that stays in exact contact. -/
theorem claim_C3_drift_synthesis_tiling_witness :
    TilesWithin 10 [⟨1, 2⟩, ⟨3, 2⟩, ⟨5, 2⟩, ⟨8, 4⟩] ∧
    (∃ u v, ([⟨1, 2⟩, ⟨3, 2⟩, ⟨5, 2⟩, ⟨8, 4⟩] : List GNode)
      = u ++ (⟨1, 2⟩ : GNode) :: mkDrift ⟨1, 2⟩ (gDist ⟨1, 2⟩ ⟨5, 2⟩) ::
          (⟨5, 2⟩ : GNode) :: v) ∧
    (∃ msg, insertDrifts 10 [(⟨1, 2⟩ : GNode), ⟨2, 2⟩] = Except.error msg) ∧
    (∃ u v, ([⟨1, 2⟩, ⟨900001/300000, 2⟩] : List GNode)
      = u ++ (⟨1, 2⟩ : GNode) :: (⟨900001/300000, 2⟩ : GNode) :: v) := by
  have hrun : insertDrifts 10 [(⟨1, 2⟩ : GNode), ⟨5, 2⟩]
      = Except.ok [⟨1, 2⟩, ⟨3, 2⟩, ⟨5, 2⟩, ⟨8, 4⟩] := by
    rw [insertDrifts_cons_eq]
    norm_num [frontCheck, backCheck, midDrifts_cons_eq, midDrifts, gDist, gLeading,
      gTrailing, mkDrift, zeroDistance]
  have hrun2 : insertDrifts (1200001/300000) [(⟨1, 2⟩ : GNode), ⟨900001/300000, 2⟩]
      = Except.ok [⟨1, 2⟩, ⟨900001/300000, 2⟩] := by
    rw [insertDrifts_cons_eq]
    norm_num [frontCheck, backCheck, midDrifts_cons_eq, midDrifts, gDist, gLeading,
      gTrailing, mkDrift, zeroDistance]
  refine ⟨claim_C3_drift_synthesis_tiling.1 10 _ _ hrun,
    (claim_C3_drift_synthesis_tiling.2.2.1 10 [] [] ⟨1, 2⟩ ⟨5, 2⟩ _ hrun
      (by norm_num [gDist, gLeading, gTrailing, zeroDistance])).1,
    claim_C3_drift_synthesis_tiling.2.1 10 [] [] ⟨1, 2⟩ ⟨2, 2⟩
      (by norm_num [gDist, gLeading, gTrailing]),
    claim_C3_drift_synthesis_tiling.2.2.2 (1200001/300000) [] [] ⟨1, 2⟩
      ⟨900001/300000, 2⟩ _ hrun2
      (by norm_num [gDist, gLeading, gTrailing, zeroDistance])⟩
